import Mathlib

/-!
Shallow embedding of `src/Homework_1/Version.py`.

The Python module defines a `Version` class with `_is_match` (validation
against the semver.org regex), `_parse_parts` (string decomposition),
`__eq__`, `__lt__` and `_compare_prerelease_less_than`;
`functools.total_ordering` derives `__gt__` from `__lt__` and `__eq__`.

Strings are modelled as `List Char`.  The regex class `\d` and Python's
`str.isdigit` are modelled over the ASCII digits `0`-`9` (every
identifier the grammar admits is ASCII; Python's wider Unicode digit
classes are not modelled).  Each point where the Python code can raise
is modelled by an `Option` returning `none`.
-/

namespace Semver

/-- Digit characters, the ASCII reading of the regex class `\d`. -/
def isDig (c : Char) : Bool := '0' ≤ c && c ≤ '9'

/-- The identifier character class `[0-9a-zA-Z-]` of the semver regex. -/
def identChar (c : Char) : Bool :=
  isDig c || ('a' ≤ c && c ≤ 'z') || ('A' ≤ c && c ≤ 'Z') || c = '-'

/-- A numeric field of the regex, `0|[1-9]\d*`: a nonempty digit run
with no leading zero unless the run is exactly `0`. -/
def numFieldOk : List Char → Bool
  | [] => false
  | c :: cs => (c :: cs).all isDig && (cs.isEmpty || c != '0')

/-- A prerelease identifier, `0|[1-9]\d*|\d*[a-zA-Z-][0-9a-zA-Z-]*`: a
nonempty run over `[0-9a-zA-Z-]` that either contains a non-digit or is
a no-leading-zero digit run. -/
def preIdOk (c : List Char) : Bool :=
  !c.isEmpty && c.all identChar && (!(c.all isDig) || numFieldOk c)

/-- Splits a string at the first occurrence of `t`; `none` when `t` is
absent. -/
def breakAt (t : Char) : List Char → List Char × Option (List Char)
  | [] => ([], none)
  | c :: cs =>
    if c = t then ([], some cs)
    else
      let p := breakAt t cs
      (c :: p.1, p.2)

/-- Splits on every `'.'` (the chunk list is always nonempty, like
Python's `str.split`/`re.split`). -/
def splitDots : List Char → List (List Char)
  | [] => [[]]
  | c :: cs =>
    if c = '.' then [] :: splitDots cs
    else
      match splitDots cs with
      | [] => [[c]]
      | h :: t => (c :: h) :: t

/-- The `major.minor.patch` core of the regex: exactly three
dot-separated numeric fields. -/
def coreOk (s : List Char) : Bool :=
  match splitDots s with
  | [d1, d2, d3] => numFieldOk d1 && numFieldOk d2 && numFieldOk d3
  | _ => false

/-- The prerelease part of the regex: dot-separated identifiers. -/
def preOk (s : List Char) : Bool := (splitDots s).all preIdOk

/-- The build part of the regex: dot-separated nonempty runs over
`[0-9a-zA-Z-]`. -/
def buildOk (s : List Char) : Bool :=
  (splitDots s).all fun c => !c.isEmpty && c.all identChar

/-- The semver.org regex used by `Version._is_match`, rendered as the
grammar it denotes: a core, then an optional `-prerelease` (everything
from the first `-` after the core), then an optional `+build`
(everything from the first `+`; neither field class contains `+` or
`.`, so taking the first occurrence is exact). -/
def strictMatch (s : List Char) : Bool :=
  let bp := breakAt '+' s
  let cp := breakAt '-' bp.1
  coreOk cp.1 &&
    (match cp.2 with | none => true | some p => preOk p) &&
    (match bp.2 with | none => true | some b => buildOk b)

/-- Model of `Version._is_match`: `re.match` with a pattern ending in
`$`.  In Python `$` also succeeds just before a newline that ends the
string, so a single trailing `'\n'` after an otherwise valid version is
accepted. -/
def is_match (s : List Char) : Bool :=
  strictMatch s ||
    (match s.getLast? with
     | some c => c = '\n' && strictMatch s.dropLast
     | none => false)

/-- One step of Python `version.split('.', 2)`: split off the part
before the first `'.'`. -/
def splitOnceDot : List Char → Option (List Char × List Char)
  | [] => none
  | c :: cs =>
    if c = '.' then some ([], cs)
    else (splitOnceDot cs).map fun p => (c :: p.1, p.2)

/-- Python `version.split('.', 2)`. -/
def pySplit2 (s : List Char) : List (List Char) :=
  match splitOnceDot s with
  | none => [s]
  | some (a, r) =>
    match splitOnceDot r with
    | none => [a, r]
    | some (b, r2) => [a, b, r2]

/-- Python `re.sub(r'^\d+-?', '', s)`: with no leading digit the
anchored pattern does not match and `s` is returned unchanged;
otherwise the leading digit run and at most one following `-` are
removed. -/
def pySub (s : List Char) : List Char :=
  match s with
  | [] => []
  | c :: _ =>
    if isDig c then
      match s.dropWhile isDig with
      | '-' :: u => u
      | t => t
    else s

/-- Python `re.split(r'[.-]', s)`: split on every `'.'` or `'-'`. -/
def pyResplit : List Char → List (List Char)
  | [] => [[]]
  | c :: cs =>
    if c = '.' ∨ c = '-' then [] :: pyResplit cs
    else
      match pyResplit cs with
      | [] => [[c]]
      | h :: t => (c :: h) :: t

/-- Python `if prerelease[0] == '': prerelease.pop(0)`. -/
def popEmptyHead : List (List Char) → List (List Char)
  | [] => []
  | x :: xs => if x.isEmpty then xs else x :: xs

/-- Numeric value of a digit run. -/
def digitVal (s : List Char) : Nat :=
  s.foldl (fun a c => 10 * a + (c.toNat - 48)) 0

/-- Python `int` on the digit-run fields produced by the validated
grammar (on strings that cannot occur in those fields Python's `int` is
more permissive — signs, spaces, underscores — which is not modelled). -/
def pyInt (s : List Char) : Option Nat :=
  if !s.isEmpty && s.all isDig then some (digitVal s) else none

/-- A parsed value: `(major, minor, patch, prerelease)` — exactly the
four fields `__eq__` and `__lt__` read (`self.version` is stored but
never compared). -/
abbrev V := Nat × Nat × Nat × List (List Char)

/-- Model of `Version._parse_parts`; `none` at each point where the
Python code would raise: unpacking `split('.', 2)` into three names,
`.group(1)` on a failed `re.match(r'^(\d+)', ...)`, and `int` on a
non-digit run. -/
def parse_parts (s : List Char) : Option V :=
  match pySplit2 s with
  | [m, n, rest] =>
    let d := rest.takeWhile isDig
    if d.isEmpty then none
    else
      match pyInt m, pyInt n, pyInt d with
      | some M, some N, some P =>
        some (M, N, P, popEmptyHead (pyResplit (pySub rest)))
      | _, _, _ => none
  | _ => none

/-- Model of `Version.__init__`: validate with `_is_match` (a failure
raises `ValueError('given version is in invalid format')`, the
InvalidFormat error, modelled as `none`), then decompose with
`_parse_parts`. -/
def parse (s : List Char) : Option V :=
  if is_match s then parse_parts s else none

/-- The `(major, minor, patch)` triple of a parsed value. -/
def coreOf (v : V) : Nat × Nat × Nat := (v.1, v.2.1, v.2.2.1)

/-- The prerelease tuple of a parsed value. -/
def preOf (v : V) : List (List Char) := v.2.2.2

/-- Model of `Version.__eq__`: equality of the
`(major, minor, patch, prerelease)` tuples. -/
def veq (v w : V) : Bool :=
  decide ((coreOf v, preOf v) = (coreOf w, preOf w))

/-- Python string comparison `a < b`: lexicographic by code point. -/
def strLt : List Char → List Char → Bool
  | [], [] => false
  | [], _ :: _ => true
  | _ :: _, [] => false
  | a :: as, b :: bs =>
    if a.toNat < b.toNat then true
    else if b.toNat < a.toNat then false
    else strLt as bs

/-- Python `str.isdigit` on the ASCII identifiers handled here. -/
def pyIsDigit (s : List Char) : Bool := !s.isEmpty && s.all isDig

/-- The decision the body of `_compare_prerelease_less_than` takes on
the first unequal identifier pair: digit runs compare as integers, a
digit run is below anything else, otherwise plain string comparison. -/
def identDecide (a b : List Char) : Bool :=
  if pyIsDigit a && pyIsDigit b then decide (digitVal a < digitVal b)
  else if pyIsDigit a then true
  else if pyIsDigit b then false
  else strLt a b

/-- The `for a, b in zip(pre1, pre2)` loop of
`_compare_prerelease_less_than`, followed by the final
`len(pre1) < len(pre2)` comparison when the zipped pairs are all
equal. -/
def preLoop : List (List Char) → List (List Char) → Bool
  | a :: as, b :: bs => if a = b then preLoop as bs else identDecide a b
  | p, q => decide (p.length < q.length)

/-- Model of `Version._compare_prerelease_less_than`: an empty left
prerelease is never less, a nonempty left is less than an empty right,
otherwise the zip loop decides. -/
def compare_prerelease_less_than (p q : List (List Char)) : Bool :=
  if p.isEmpty then false
  else if q.isEmpty then true
  else preLoop p q

/-- Python tuple comparison on `(major, minor, patch)`. -/
def tripleLt (x y : Nat × Nat × Nat) : Bool :=
  decide (x.1 < y.1) ||
    (decide (x.1 = y.1) &&
      (decide (x.2.1 < y.2.1) ||
        (decide (x.2.1 = y.2.1) && decide (x.2.2 < y.2.2))))

/-- Model of `Version.__lt__`: unequal cores are decided by the tuple
comparison, equal cores by `_compare_prerelease_less_than`. -/
def vlt (v w : V) : Bool :=
  if coreOf v ≠ coreOf w then tripleLt (coreOf v) (coreOf w)
  else compare_prerelease_less_than (preOf v) (preOf w)

/-- The `__gt__` derived by `functools.total_ordering` from `__lt__`
and `__eq__`: `a > b` iff not `a < b` and not `a == b`. -/
def vgt (v w : V) : Bool := !(vlt v w || veq v w)

/-- Refinement definition following the spec's words (section 4.1,
Decomposition): the prerelease segment of the grammar — between the
first `-` after the core and the `+` or the end — split on `'.'` only.
It exists to be compared with `parse_parts`, which splits the post-patch
remainder on both `'.'` and `'-'`. -/
def specDotSplitPre (s : List Char) : List (List Char) :=
  match (breakAt '-' (breakAt '+' s).1).2 with
  | some p => splitDots p
  | none => []

/-! Ordering algebra: the pairwise identifier decision, the zip loop and
`__lt__` form a strict partial order. -/

lemma strLt_irrefl (l : List Char) : strLt l l = false := by
  induction l with
  | nil => rfl
  | cons a as ih => simp [strLt, ih]

lemma strLt_asymm : ∀ a b, strLt a b = true → strLt b a = false := by
  intro a
  induction a with
  | nil =>
    intro b h
    cases b <;> simp [strLt] at h ⊢
  | cons x xs ih =>
    intro b h
    cases b with
    | nil => simp [strLt] at h
    | cons y ys =>
      simp only [strLt] at h ⊢
      rcases Nat.lt_trichotomy x.toNat y.toNat with h1 | h1 | h1
      · simp [h1, Nat.lt_asymm h1]
      · simp [h1, Nat.lt_irrefl] at h ⊢
        exact ih ys h
      · simp [h1, Nat.lt_asymm h1] at h

lemma strLt_trans : ∀ a b c, strLt a b = true → strLt b c = true →
    strLt a c = true := by
  intro a
  induction a with
  | nil =>
    intro b c hab hbc
    cases b with
    | nil => simp [strLt] at hab
    | cons y ys =>
      cases c with
      | nil => simp [strLt] at hbc
      | cons z zs => simp [strLt]
  | cons x xs ih =>
    intro b c hab hbc
    cases b with
    | nil => simp [strLt] at hab
    | cons y ys =>
      cases c with
      | nil => simp [strLt] at hbc
      | cons z zs =>
        simp only [strLt] at hab hbc ⊢
        rcases Nat.lt_trichotomy x.toNat y.toNat with h1 | h1 | h1 <;>
          rcases Nat.lt_trichotomy y.toNat z.toNat with h2 | h2 | h2
        · simp [Nat.lt_trans h1 h2]
        · simp [h2 ▸ h1]
        · simp [Nat.lt_asymm h2, h2] at hbc
        · simp [h1 ▸ h2]
        · simp [h1, h2, Nat.lt_irrefl] at hab hbc ⊢
          exact ih ys zs hab hbc
        · simp [Nat.lt_asymm h2, h2] at hbc
        · simp [Nat.lt_asymm h1, h1] at hab
        · simp [Nat.lt_asymm h1, h1] at hab
        · simp [Nat.lt_asymm h1, h1] at hab

lemma identDecide_irrefl (a : List Char) : identDecide a a = false := by
  unfold identDecide
  by_cases h : pyIsDigit a = true <;> simp [h, strLt_irrefl]

lemma identDecide_asymm (a b : List Char) (h : identDecide a b = true) :
    identDecide b a = false := by
  unfold identDecide at h ⊢
  by_cases da : pyIsDigit a = true <;> by_cases db : pyIsDigit b = true <;>
    simp [da, db] at h ⊢
  · omega
  · exact strLt_asymm a b h

lemma identDecide_trans (a b c : List Char) (hab : identDecide a b = true)
    (hbc : identDecide b c = true) : identDecide a c = true := by
  unfold identDecide at hab hbc ⊢
  by_cases da : pyIsDigit a = true <;> by_cases db : pyIsDigit b = true <;>
    by_cases dc : pyIsDigit c = true <;> simp [da, db, dc] at hab hbc ⊢
  · omega
  · exact strLt_trans a b c hab hbc

lemma preLoop_irrefl : ∀ p, preLoop p p = false := by
  intro p
  induction p with
  | nil => simp [preLoop]
  | cons a as ih => simp [preLoop, ih]

lemma preLoop_asymm : ∀ p q, preLoop p q = true → preLoop q p = false := by
  intro p
  induction p with
  | nil =>
    intro q h
    cases q with
    | nil => simp [preLoop] at h
    | cons b bs => simp [preLoop]
  | cons a as ih =>
    intro q h
    cases q with
    | nil => simp [preLoop] at h
    | cons b bs =>
      simp only [preLoop] at h ⊢
      by_cases hx : a = b
      · subst hx
        simp at h ⊢
        exact ih bs h
      · have hx' : b ≠ a := fun e => hx e.symm
        simp [hx, hx'] at h ⊢
        exact identDecide_asymm _ _ h

lemma preLoop_trans : ∀ p q r, preLoop p q = true → preLoop q r = true →
    preLoop p r = true := by
  intro p
  induction p with
  | nil =>
    intro q r hq hr
    cases q with
    | nil => simp [preLoop] at hq
    | cons b bs =>
      cases r with
      | nil => simp [preLoop] at hr
      | cons c cs => simp [preLoop]
  | cons a as ih =>
    intro q r hq hr
    cases q with
    | nil => simp [preLoop] at hq
    | cons b bs =>
      cases r with
      | nil => simp [preLoop] at hr
      | cons c cs =>
        simp only [preLoop] at hq hr ⊢
        by_cases h1 : a = b <;> by_cases h2 : b = c
        · subst h1; subst h2
          simp at hq hr ⊢
          exact ih bs cs hq hr
        · subst h1
          simp [h2] at hr ⊢
          exact hr
        · subst h2
          simp [h1] at hq ⊢
          exact hq
        · simp [h1, h2] at hq hr
          by_cases h3 : a = c
          · subst h3
            have := identDecide_asymm a b hq
            rw [this] at hr
            exact absurd hr (by simp)
          · simp [h3]
            exact identDecide_trans a b c hq hr

lemma cplt_irrefl (p : List (List Char)) :
    compare_prerelease_less_than p p = false := by
  unfold compare_prerelease_less_than
  cases p with
  | nil => simp
  | cons a as => simp [preLoop_irrefl]

lemma cplt_asymm (p q : List (List Char))
    (h : compare_prerelease_less_than p q = true) :
    compare_prerelease_less_than q p = false := by
  unfold compare_prerelease_less_than at h ⊢
  cases p with
  | nil => simp at h
  | cons a as =>
    cases q with
    | nil => simp
    | cons b bs =>
      simp at h ⊢
      exact preLoop_asymm _ _ h

lemma cplt_trans (p q r : List (List Char))
    (hpq : compare_prerelease_less_than p q = true)
    (hqr : compare_prerelease_less_than q r = true) :
    compare_prerelease_less_than p r = true := by
  unfold compare_prerelease_less_than at hpq hqr ⊢
  cases p with
  | nil => simp at hpq
  | cons a as =>
    cases q with
    | nil => simp at hpq hqr
    | cons b bs =>
      cases r with
      | nil => simp
      | cons c cs =>
        simp at hpq hqr ⊢
        exact preLoop_trans _ _ _ hpq hqr

lemma tripleLt_asymm (x y : Nat × Nat × Nat) (h : tripleLt x y = true) :
    tripleLt y x = false := by
  rcases x with ⟨a, b, c⟩
  rcases y with ⟨d, e, f⟩
  simp [tripleLt] at h ⊢
  omega

lemma tripleLt_trans (x y z : Nat × Nat × Nat) (h1 : tripleLt x y = true)
    (h2 : tripleLt y z = true) : tripleLt x z = true := by
  rcases x with ⟨a, b, c⟩
  rcases y with ⟨d, e, f⟩
  rcases z with ⟨g, i, j⟩
  simp [tripleLt] at h1 h2 ⊢
  omega

lemma tripleLt_ne (x y : Nat × Nat × Nat) (h : tripleLt x y = true) :
    x ≠ y := by
  rcases x with ⟨a, b, c⟩
  rcases y with ⟨d, e, f⟩
  simp [tripleLt] at h ⊢
  omega

lemma vlt_irrefl (v : V) : vlt v v = false := by
  simp [vlt, cplt_irrefl]

lemma veq_excludes_vlt (v w : V) (h : veq v w = true) :
    vlt v w = false ∧ vlt w v = false := by
  unfold veq at h
  rw [decide_eq_true_eq, Prod.mk.injEq] at h
  obtain ⟨hc, hp⟩ := h
  constructor <;> simp [vlt, hc, hp, cplt_irrefl]

lemma vlt_asymm (v w : V) (h : vlt v w = true) : vlt w v = false := by
  unfold vlt at h ⊢
  by_cases hc : coreOf v = coreOf w
  · simp [hc] at h ⊢
    exact cplt_asymm _ _ h
  · have hc' : coreOf w ≠ coreOf v := fun e => hc e.symm
    simp [hc, hc'] at h ⊢
    exact tripleLt_asymm _ _ h

lemma vlt_trans (u v w : V) (h1 : vlt u v = true) (h2 : vlt v w = true) :
    vlt u w = true := by
  unfold vlt at h1 h2 ⊢
  by_cases hc1 : coreOf u = coreOf v <;> by_cases hc2 : coreOf v = coreOf w
  · simp [hc1, hc2, hc1.trans hc2] at h1 h2 ⊢
    exact cplt_trans _ _ _ h1 h2
  · simp [hc1, hc2] at h1 h2
    have hne : coreOf u ≠ coreOf w := fun e => hc2 (hc1.symm.trans e)
    simp [hne]
    rw [hc1]
    exact h2
  · simp [hc1] at h1
    have hne : coreOf u ≠ coreOf w := fun e => hc1 (e.trans hc2.symm)
    simp [hne]
    rw [← hc2]
    exact h1
  · simp [hc1, hc2] at h1 h2
    have ht := tripleLt_trans _ _ _ h1 h2
    have hne : coreOf u ≠ coreOf w := tripleLt_ne _ _ ht
    simp [hne]
    exact ht

/-! List helpers about the splitting primitives. -/

lemma takeWhile_append_sat {p : Char → Bool} :
    ∀ (a b : List Char), (∀ c ∈ a, p c = true) →
      (∀ c, b.head? = some c → p c = false) →
      (a ++ b).takeWhile p = a ∧ (a ++ b).dropWhile p = b := by
  intro a
  induction a with
  | nil =>
    intro b _ hb
    cases b with
    | nil => simp
    | cons c cs =>
      have hc := hb c rfl
      simp [List.takeWhile_cons, List.dropWhile_cons, hc]
  | cons x xs ih =>
    intro b ha hb
    have hx : p x = true := ha x (List.mem_cons_self _ _)
    have h2 := ih b (fun c hc => ha c (List.mem_cons_of_mem _ hc)) hb
    simp [List.takeWhile_cons, List.dropWhile_cons, hx, h2.1, h2.2]

lemma breakAt_not_mem {t : Char} : ∀ l, t ∉ l → breakAt t l = (l, none) := by
  intro l
  induction l with
  | nil => intro _; rfl
  | cons c cs ih =>
    intro h
    have hc : ¬c = t := fun e => h (e ▸ List.mem_cons_self _ _)
    have hcs := ih fun hm => h (List.mem_cons_of_mem _ hm)
    simp [breakAt, hc, hcs]

lemma breakAt_first {t : Char} : ∀ a r, t ∉ a →
    breakAt t (a ++ t :: r) = (a, some r) := by
  intro a
  induction a with
  | nil => intro r _; simp [breakAt]
  | cons c cs ih =>
    intro r h
    have hc : ¬c = t := fun e => h (e ▸ List.mem_cons_self _ _)
    have hcs := ih r fun hm => h (List.mem_cons_of_mem _ hm)
    simp [breakAt, hc, hcs]

lemma breakAt_recons (t : Char) : ∀ l : List Char,
    l = (breakAt t l).1 ++
        (match (breakAt t l).2 with | none => [] | some r => t :: r) ∧
      t ∉ (breakAt t l).1 := by
  intro l
  induction l with
  | nil => simp [breakAt]
  | cons c cs ih =>
    by_cases hc : c = t
    · subst hc
      simp [breakAt]
    · simp only [breakAt, if_neg hc]
      refine ⟨?_, ?_⟩
      · conv_lhs => rw [ih.1]
        simp
      · intro hm
        rcases List.mem_cons.mp hm with h | h
        · exact hc h.symm
        · exact ih.2 h

lemma splitDots_ne_nil : ∀ l : List Char, splitDots l ≠ [] := by
  intro l
  cases l with
  | nil => simp [splitDots]
  | cons c cs =>
    by_cases hc : c = '.'
    · simp [splitDots, hc]
    · simp only [splitDots, if_neg hc]
      rcases h : splitDots cs with _ | ⟨x, xs⟩ <;> simp

/-- Inverse of `splitDots`: interleave `'.'` between the chunks. -/
def joinDots : List (List Char) → List Char
  | [] => []
  | [x] => x
  | x :: y :: t => x ++ '.' :: joinDots (y :: t)

lemma joinDots_cons (x : List Char) (L : List (List Char)) (h : L ≠ []) :
    joinDots (x :: L) = x ++ '.' :: joinDots L := by
  cases L with
  | nil => exact absurd rfl h
  | cons y t => rfl

lemma splitDots_join : ∀ l : List Char, joinDots (splitDots l) = l := by
  intro l
  induction l with
  | nil => rfl
  | cons c cs ih =>
    by_cases hc : c = '.'
    · subst hc
      have hs : splitDots ('.' :: cs) = [] :: splitDots cs := by
        simp [splitDots]
      rw [hs, joinDots_cons _ _ (splitDots_ne_nil cs), ih]
      rfl
    · simp only [splitDots, if_neg hc]
      rcases h : splitDots cs with _ | ⟨x, xs⟩
      · exact absurd h (splitDots_ne_nil cs)
      · rw [h] at ih
        cases xs with
        | nil =>
          simp [joinDots] at ih ⊢
          rw [ih]
        | cons y t =>
          rw [joinDots_cons _ _ (by simp)] at ih
          rw [joinDots_cons _ _ (by simp), ← ih]
          simp

lemma splitDots_no_dot : ∀ (l : List Char) d, d ∈ splitDots l → '.' ∉ d := by
  intro l
  induction l with
  | nil =>
    intro d hd
    simp [splitDots] at hd
    simp [hd]
  | cons c cs ih =>
    intro d hd
    by_cases hc : c = '.'
    · subst hc
      simp only [splitDots, if_pos rfl] at hd
      rcases List.mem_cons.mp hd with h | h
      · simp [h]
      · exact ih d h
    · simp only [splitDots, if_neg hc] at hd
      rcases h : splitDots cs with _ | ⟨x, xs⟩
      · exact absurd h (splitDots_ne_nil cs)
      · rw [h] at hd
        rcases List.mem_cons.mp hd with h1 | h1
        · subst h1
          intro hm
          rcases List.mem_cons.mp hm with h2 | h2
          · exact hc h2.symm
          · exact ih x (h ▸ List.mem_cons_self _ _) h2
        · exact ih d (h ▸ List.mem_cons_of_mem _ h1)

lemma splitDots_single : ∀ l : List Char, '.' ∉ l → splitDots l = [l] := by
  intro l
  induction l with
  | nil => intro _; rfl
  | cons c cs ih =>
    intro h
    have hc : ¬c = '.' := fun e => h (e ▸ List.mem_cons_self _ _)
    have hcs := ih fun hm => h (List.mem_cons_of_mem _ hm)
    simp [splitDots, hc, hcs]

lemma splitOnceDot_of_first : ∀ (a r : List Char), '.' ∉ a →
    splitOnceDot (a ++ '.' :: r) = some (a, r) := by
  intro a
  induction a with
  | nil => intro r _; simp [splitOnceDot]
  | cons c cs ih =>
    intro r h
    have hc : ¬c = '.' := fun e => h (e ▸ List.mem_cons_self _ _)
    have hcs := ih r fun hm => h (List.mem_cons_of_mem _ hm)
    simp [splitOnceDot, hc, hcs]

lemma pySplit2_shape (m n r : List Char) (hm : '.' ∉ m) (hn : '.' ∉ n) :
    pySplit2 (m ++ '.' :: (n ++ '.' :: r)) = [m, n, r] := by
  unfold pySplit2
  rw [splitOnceDot_of_first _ _ hm]
  simp only
  rw [splitOnceDot_of_first _ _ hn]

lemma pyInt_of_digits (l : List Char) (h : l ≠ [])
    (hd : ∀ c ∈ l, isDig c = true) : pyInt l = some (digitVal l) := by
  unfold pyInt
  have h1 : l.isEmpty = false := by
    cases l with
    | nil => exact absurd rfl h
    | cons c cs => rfl
  have h2 : l.all isDig = true := List.all_eq_true.mpr hd
  simp [h1, h2]

lemma numFieldOk_digits {d : List Char} (h : numFieldOk d = true) :
    d ≠ [] ∧ ∀ c ∈ d, isDig c = true := by
  cases d with
  | nil => simp [numFieldOk] at h
  | cons c cs =>
    simp only [numFieldOk, Bool.and_eq_true] at h
    exact ⟨by simp, List.all_eq_true.mp h.1⟩

lemma pySub_strip (p r : List Char) (hp : p ≠ [])
    (hpd : ∀ c ∈ p, isDig c = true) : pySub (p ++ '-' :: r) = r := by
  cases p with
  | nil => exact absurd rfl hp
  | cons c cs =>
    have hc : isDig c = true := hpd c (List.mem_cons_self _ _)
    have hdrop := (takeWhile_append_sat (c :: cs) ('-' :: r) hpd
      (fun x hx => by
        rw [List.head?_cons, Option.some.injEq] at hx
        subst hx
        decide)).2
    simp only [pySub, List.cons_append, if_pos hc] at *
    rw [hdrop]
    rfl

lemma pyResplit_set : ∀ (r : List Char) (j : Nat), r.get? j = some '-' →
    pyResplit (r.set j '.') = pyResplit r := by
  intro r
  induction r with
  | nil => intro j hj; simp at hj
  | cons c cs ih =>
    intro j hj
    cases j with
    | zero =>
      rw [List.get?_cons_zero, Option.some.injEq] at hj
      subst hj
      simp [pyResplit]
    | succ j =>
      rw [List.get?_cons_succ] at hj
      have := ih j hj
      by_cases hc : c = '.' ∨ c = '-'
      · simp [List.set, pyResplit, hc, this]
      · simp [List.set, pyResplit, hc, this]

/-! Shape of a string accepted by the grammar, and totality of the
decomposition on accepted strings. -/

lemma coreOk_shape {c : List Char} (h : coreOk c = true) :
    ∃ d1 d2 d3, c = d1 ++ '.' :: (d2 ++ '.' :: d3) ∧
      numFieldOk d1 = true ∧ numFieldOk d2 = true ∧ numFieldOk d3 = true ∧
      '.' ∉ d1 ∧ '.' ∉ d2 ∧ '.' ∉ d3 := by
  unfold coreOk at h
  rcases hsd : splitDots c with _ | ⟨d1, l1⟩
  · exact absurd hsd (splitDots_ne_nil c)
  rcases l1 with _ | ⟨d2, l2⟩
  · rw [hsd] at h; simp at h
  rcases l2 with _ | ⟨d3, l3⟩
  · rw [hsd] at h; simp at h
  rcases l3 with _ | ⟨d4, l4⟩
  · rw [hsd] at h
    simp only [Bool.and_eq_true] at h
    have hj := splitDots_join c
    rw [hsd] at hj
    have hc : c = d1 ++ '.' :: (d2 ++ '.' :: d3) := by
      rw [← hj]; rfl
    exact ⟨d1, d2, d3, hc, h.1.1, h.1.2, h.2,
      splitDots_no_dot c d1 (hsd ▸ by simp),
      splitDots_no_dot c d2 (hsd ▸ by simp),
      splitDots_no_dot c d3 (hsd ▸ by simp)⟩
  · rw [hsd] at h; simp at h

lemma strictMatch_shape {s : List Char} (h : strictMatch s = true) :
    ∃ m n p t, s = m ++ '.' :: (n ++ '.' :: (p ++ t)) ∧
      m ≠ [] ∧ n ≠ [] ∧ p ≠ [] ∧
      (∀ c ∈ m, isDig c = true) ∧ (∀ c ∈ n, isDig c = true) ∧
      (∀ c ∈ p, isDig c = true) ∧ '.' ∉ m ∧ '.' ∉ n ∧
      (∀ c, t.head? = some c → isDig c = false) := by
  simp only [strictMatch, Bool.and_eq_true] at h
  obtain ⟨⟨hcore, _⟩, _⟩ := h
  obtain ⟨hsB, _⟩ := breakAt_recons '+' s
  obtain ⟨hBC, _⟩ := breakAt_recons '-' (breakAt '+' s).1
  obtain ⟨d1, d2, d3, hceq, hf1, hf2, hf3, hd1, hd2, hd3⟩ := coreOk_shape hcore
  obtain ⟨hm0, hmd⟩ := numFieldOk_digits hf1
  obtain ⟨hn0, hnd⟩ := numFieldOk_digits hf2
  obtain ⟨hp0, hpd⟩ := numFieldOk_digits hf3
  rcases hC2 : (breakAt '-' (breakAt '+' s).1).2 with _ | pr <;>
    rcases hB2 : (breakAt '+' s).2 with _ | bb <;>
    rw [hC2] at hBC <;> rw [hB2] at hsB <;>
    simp only [List.append_nil] at hBC hsB
  · refine ⟨d1, d2, d3, [], ?_, hm0, hn0, hp0, hmd, hnd, hpd, hd1, hd2, ?_⟩
    · rw [hsB, hBC, hceq]
      simp
    · intro c hc
      simp at hc
  · refine ⟨d1, d2, d3, '+' :: bb, ?_, hm0, hn0, hp0, hmd, hnd, hpd,
      hd1, hd2, ?_⟩
    · rw [hsB, hBC, hceq]
      simp [List.append_assoc]
    · intro c hc
      simp at hc
      subst hc
      decide
  · refine ⟨d1, d2, d3, '-' :: pr, ?_, hm0, hn0, hp0, hmd, hnd, hpd,
      hd1, hd2, ?_⟩
    · rw [hsB, hBC, hceq]
      simp [List.append_assoc]
    · intro c hc
      simp at hc
      subst hc
      decide
  · refine ⟨d1, d2, d3, '-' :: (pr ++ '+' :: bb), ?_, hm0, hn0, hp0,
      hmd, hnd, hpd, hd1, hd2, ?_⟩
    · rw [hsB, hBC, hceq]
      simp [List.append_assoc]
    · intro c hc
      simp at hc
      subst hc
      decide

lemma parse_parts_eval (m n p t : List Char) (hm : '.' ∉ m) (hn : '.' ∉ n)
    (hp : p ≠ []) (hpd : ∀ c ∈ p, isDig c = true)
    (ht : ∀ c, t.head? = some c → isDig c = false) :
    parse_parts (m ++ '.' :: (n ++ '.' :: (p ++ t))) =
      match pyInt m, pyInt n with
      | some M, some N =>
        some (M, N, digitVal p, popEmptyHead (pyResplit (pySub (p ++ t))))
      | _, _ => none := by
  unfold parse_parts
  rw [pySplit2_shape _ _ _ hm hn]
  simp only
  have htw : (p ++ t).takeWhile isDig = p := (takeWhile_append_sat p t hpd ht).1
  rw [htw]
  have hpe : p.isEmpty = false := by
    cases p with
    | nil => exact absurd rfl hp
    | cons a b => rfl
  rw [hpe]
  simp only [Bool.false_eq_true, if_false]
  rw [pyInt_of_digits p hp hpd]
  rcases pyInt m with _ | M <;> rcases pyInt n with _ | N <;> rfl

lemma head_not_dig_newline (t : List Char)
    (ht : ∀ c, t.head? = some c → isDig c = false) :
    ∀ c, (t ++ ['\n']).head? = some c → isDig c = false := by
  cases t with
  | nil =>
    intro c hc
    simp at hc
    subst hc
    decide
  | cons x xs =>
    intro c hc
    rw [List.cons_append, List.head?_cons, Option.some.injEq] at hc
    subst hc
    exact ht x rfl

lemma parse_parts_isSome_strict {s : List Char} (h : strictMatch s = true) :
    (parse_parts s).isSome = true := by
  obtain ⟨m, n, p, t, hs, hm0, hn0, hp0, hmd, hnd, hpd, hmdot, hndot, ht⟩ :=
    strictMatch_shape h
  rw [hs, parse_parts_eval m n p t hmdot hndot hp0 hpd ht,
    pyInt_of_digits m hm0 hmd, pyInt_of_digits n hn0 hnd]
  rfl

lemma parse_parts_isSome_newline {s : List Char} (h : strictMatch s = true) :
    (parse_parts (s ++ ['\n'])).isSome = true := by
  obtain ⟨m, n, p, t, hs, hm0, hn0, hp0, hmd, hnd, hpd, hmdot, hndot, ht⟩ :=
    strictMatch_shape h
  have hassoc : (m ++ '.' :: (n ++ '.' :: (p ++ t))) ++ ['\n'] =
      m ++ '.' :: (n ++ '.' :: (p ++ (t ++ ['\n']))) := by
    simp [List.append_assoc]
  rw [hs, hassoc,
    parse_parts_eval m n p (t ++ ['\n']) hmdot hndot hp0 hpd
      (head_not_dig_newline t ht),
    pyInt_of_digits m hm0 hmd, pyInt_of_digits n hn0 hnd]
  rfl

lemma parse_isSome_of_match {s : List Char} (h : is_match s = true) :
    (parse s).isSome = true := by
  have hp : (parse_parts s).isSome = true := by
    unfold is_match at h
    simp only [Bool.or_eq_true] at h
    rcases h with h | h
    · exact parse_parts_isSome_strict h
    · rcases List.eq_nil_or_concat s with rfl | ⟨l, b, rfl⟩
      · simp at h
      · rw [List.concat_eq_append] at h ⊢
        rw [List.getLast?_concat] at h
        simp only [List.dropLast_concat, Bool.and_eq_true] at h
        obtain ⟨hb, hstrict⟩ := h
        have hb' : b = '\n' := by simpa using hb
        subst hb'
        exact parse_parts_isSome_newline hstrict
  unfold parse
  rw [if_pos h]
  exact hp

/-! Remaining helper lemmas for the individual claims. -/

lemma isEmpty_false_of_ne_nil {α : Type} {l : List α} (h : l ≠ []) :
    l.isEmpty = false := by
  cases l with
  | nil => exact absurd rfl h
  | cons a as => rfl

lemma preLoop_first_diff : ∀ (pfx : List (List Char)) (a b : List Char)
    (ra rb : List (List Char)), a ≠ b →
    preLoop (pfx ++ a :: ra) (pfx ++ b :: rb) = identDecide a b := by
  intro pfx
  induction pfx with
  | nil =>
    intro a b ra rb h
    simp [preLoop, h]
  | cons x xs ih =>
    intro a b ra rb h
    simp only [List.cons_append, preLoop, if_pos rfl]
    exact ih a b ra rb h

lemma cplt_first_diff (pfx : List (List Char)) (a b : List Char)
    (ra rb : List (List Char)) (h : a ≠ b) :
    compare_prerelease_less_than (pfx ++ a :: ra) (pfx ++ b :: rb) =
      identDecide a b := by
  unfold compare_prerelease_less_than
  have h1 : (pfx ++ a :: ra).isEmpty = false :=
    isEmpty_false_of_ne_nil (by simp)
  have h2 : (pfx ++ b :: rb).isEmpty = false :=
    isEmpty_false_of_ne_nil (by simp)
  rw [h1, h2]
  simp only [Bool.false_eq_true, if_false]
  exact preLoop_first_diff pfx a b ra rb h

lemma vlt_eq_core (v w : V) (hc : coreOf v = coreOf w) :
    vlt v w = compare_prerelease_less_than (preOf v) (preOf w) := by
  simp [vlt, hc]

lemma cplt_nonempty_empty (p : List (List Char)) (hp : p ≠ []) :
    compare_prerelease_less_than p [] = true := by
  unfold compare_prerelease_less_than
  rw [isEmpty_false_of_ne_nil hp]
  rfl

lemma cplt_empty (q : List (List Char)) :
    compare_prerelease_less_than [] q = false := by
  rfl

lemma strictMatch_core_dash (c : List Char) (h0 : c ≠ [])
    (hid : ∀ ch ∈ c, identChar ch = true) (hnd : c.all isDig = false) :
    strictMatch ('1' :: '.' :: '0' :: '.' :: '0' :: '-' :: c) = true := by
  have hplus : '+' ∉ ('1' :: '.' :: '0' :: '.' :: '0' :: '-' :: c) := by
    intro hm
    simp at hm
    exact absurd (hid '+' hm) (by decide)
  have hdot : '.' ∉ c := fun hm => absurd (hid '.' hm) (by decide)
  have hb := breakAt_not_mem _ hplus
  have hc := @breakAt_first '-' (['1', '.', '0', '.', '0'] : List Char) c
    (by decide)
  simp only [strictMatch]
  rw [hb]
  simp only
  rw [show ('1' :: '.' :: '0' :: '.' :: '0' :: '-' :: c : List Char) =
    ['1', '.', '0', '.', '0'] ++ '-' :: c from rfl, hc]
  simp only
  have hcore : coreOk ['1', '.', '0', '.', '0'] = true := by decide
  have hpre : preOk c = true := by
    unfold preOk
    rw [splitDots_single c hdot]
    simp [preIdOk, isEmpty_false_of_ne_nil h0, List.all_eq_true.mpr hid, hnd]
  rw [hcore, hpre]
  rfl

lemma parse_parts_swap (m n p r : List Char) (j : Nat) (hm : '.' ∉ m)
    (hn : '.' ∉ n) (hp : p ≠ []) (hpd : ∀ c ∈ p, isDig c = true)
    (hj : r.get? j = some '-') :
    parse_parts (m ++ '.' :: (n ++ '.' :: (p ++ '-' :: (r.set j '.')))) =
      parse_parts (m ++ '.' :: (n ++ '.' :: (p ++ '-' :: r))) := by
  have hd : ∀ (x : List Char) (c : Char),
      (('-' : Char) :: x).head? = some c → isDig c = false := by
    intro x c hx
    rw [List.head?_cons, Option.some.injEq] at hx
    subst hx
    decide
  rw [parse_parts_eval m n p ('-' :: (r.set j '.')) hm hn hp hpd (hd _),
    parse_parts_eval m n p ('-' :: r) hm hn hp hpd (hd _),
    pySub_strip p _ hp hpd, pySub_strip p _ hp hpd,
    pyResplit_set r j hj]

/-! Claim theorems. -/

/-- C1 (code bug): build metadata does affect equality and ordering.
`_parse_parts` never strips a `+build` suffix, so it lands inside the
prerelease tuple: `parse("1.0.0+build1")` and `parse("1.0.0+build2")`
carry prereleases `("+build1",)` and `("+build2",)` and `__eq__` returns
`False`, where the claim requires `True`; the suffix also changes the
ordering against `parse("1.0.0")`. -/
theorem C1_build_metadata_affects_equality :
    parse ("1.0.0+build1".toList) =
      some (1, 0, 0, [['+', 'b', 'u', 'i', 'l', 'd', '1']]) ∧
    parse ("1.0.0+build2".toList) =
      some (1, 0, 0, [['+', 'b', 'u', 'i', 'l', 'd', '2']]) ∧
    veq (1, 0, 0, [['+', 'b', 'u', 'i', 'l', 'd', '1']])
      (1, 0, 0, [['+', 'b', 'u', 'i', 'l', 'd', '2']]) = false ∧
    parse ("1.0.0".toList) = some (1, 0, 0, []) ∧
    vlt (1, 0, 0, [['+', 'b', 'u', 'i', 'l', 'd', '1']])
      (1, 0, 0, []) = true :=
  ⟨by decide, by decide, by decide, by decide, by decide⟩

/-- C2 (counterexample): trichotomy fails.  `"1.0.0-x-01"` and
`"1.0.0-x.1"` are both valid and parse to prerelease tuples
`("x","01")` and `("x","1")`: the tuples differ textually so `__eq__`
is `False`, yet the comparison loop compares `"01"` and `"1"` as the
equal integers `1 < 1`, so neither is `__lt__` the other; the derived
`__gt__` then holds in both directions at once. -/
theorem C2_trichotomy_fails :
    parse ("1.0.0-x-01".toList) = some (1, 0, 0, [['x'], ['0', '1']]) ∧
    parse ("1.0.0-x.1".toList) = some (1, 0, 0, [['x'], ['1']]) ∧
    vlt (1, 0, 0, [['x'], ['0', '1']]) (1, 0, 0, [['x'], ['1']]) = false ∧
    veq (1, 0, 0, [['x'], ['0', '1']]) (1, 0, 0, [['x'], ['1']]) = false ∧
    vlt (1, 0, 0, [['x'], ['1']]) (1, 0, 0, [['x'], ['0', '1']]) = false ∧
    vgt (1, 0, 0, [['x'], ['0', '1']]) (1, 0, 0, [['x'], ['1']]) = true ∧
    vgt (1, 0, 0, [['x'], ['1']]) (1, 0, 0, [['x'], ['0', '1']]) = true :=
  ⟨by decide, by decide, by decide, by decide, by decide, by decide,
    by decide⟩

/-- C2 (amended): the comparison is a strict partial order on parsed
Versions — equal values are never `<` in either direction, `<` is
asymmetric and excludes `==`, and `<` is transitive — but not a total
order (see the counterexample). -/
theorem C2_strict_partial_order :
    ∀ (sa sb sc : List Char) (va vb vc : V),
      parse sa = some va → parse sb = some vb → parse sc = some vc →
      (veq va vb = true → vlt va vb = false ∧ vlt vb va = false) ∧
      (vlt va vb = true → vlt vb va = false ∧ veq va vb = false) ∧
      (vlt va vb = true → vlt vb vc = true → vlt va vc = true) := by
  intro sa sb sc va vb vc _ _ _
  refine ⟨fun he => veq_excludes_vlt va vb he,
    fun hl => ⟨vlt_asymm va vb hl, ?_⟩,
    fun h1 h2 => vlt_trans va vb vc h1 h2⟩
  cases hev : veq va vb with
  | false => rfl
  | true =>
    have h := (veq_excludes_vlt va vb hev).1
    rw [h] at hl
    exact absurd hl (by simp)

/-- C2 witness: the strict-partial-order theorem applied to the parses
of `"1.0.0"`, `"1.0.1"` and `"1.0.2"`. -/
theorem C2_strict_partial_order_witness :
    vlt ((1, 0, 0, []) : V) ((1, 0, 0, []) : V) = false ∧
    (vlt ((1, 0, 1, []) : V) ((1, 0, 0, []) : V) = false ∧
      veq ((1, 0, 0, []) : V) ((1, 0, 1, []) : V) = false) ∧
    vlt ((1, 0, 0, []) : V) ((1, 0, 2, []) : V) = true :=
  ⟨((C2_strict_partial_order ("1.0.0".toList) ("1.0.0".toList)
      ("1.0.0".toList) (1, 0, 0, []) (1, 0, 0, []) (1, 0, 0, [])
      (by decide) (by decide) (by decide)).1 (by decide)).1,
    (C2_strict_partial_order ("1.0.0".toList) ("1.0.1".toList)
      ("1.0.2".toList) (1, 0, 0, []) (1, 0, 1, []) (1, 0, 2, [])
      (by decide) (by decide) (by decide)).2.1 (by decide),
    (C2_strict_partial_order ("1.0.0".toList) ("1.0.1".toList)
      ("1.0.2".toList) (1, 0, 0, []) (1, 0, 1, []) (1, 0, 2, [])
      (by decide) (by decide) (by decide)).2.2 (by decide) (by decide)⟩

/-- C3 (code bug): a trailing newline is accepted.  The pattern of
`_is_match` ends in `$`, which in Python also matches just before a
string-final newline, so `"1.0.0\n"` validates and parses to a Version
whose prerelease tuple is `("\n",)`, where the claim requires an
InvalidFormat failure. -/
theorem C3_trailing_newline_accepted :
    is_match ("1.0.0\n".toList) = true ∧
    parse ("1.0.0\n".toList) = some (1, 0, 0, [['\n']]) :=
  ⟨by decide, by decide⟩

/-- C4 (counterexample): equality is not determined by splitting the
prerelease segment on `'.'` alone.  The grammar prerelease segments of
`"1.0.0-a-b"` and `"1.0.0-a.b"` split on `'.'` into the different
sequences `("a-b")` and `("a","b")`, yet the two strings parse to the
same value and `__eq__` returns `True`. -/
theorem C4_dot_only_split_fails :
    specDotSplitPre ("1.0.0-a-b".toList) = [['a', '-', 'b']] ∧
    specDotSplitPre ("1.0.0-a.b".toList) = [['a'], ['b']] ∧
    ([['a', '-', 'b']] : List (List Char)) ≠ [['a'], ['b']] ∧
    parse ("1.0.0-a-b".toList) = some (1, 0, 0, [['a'], ['b']]) ∧
    parse ("1.0.0-a.b".toList) = some (1, 0, 0, [['a'], ['b']]) ∧
    veq (1, 0, 0, [['a'], ['b']]) (1, 0, 0, [['a'], ['b']]) = true :=
  ⟨by decide, by decide, by decide, by decide, by decide, by decide⟩

/-- C4 (amended): equality holds iff the `(major, minor, patch)` cores
are equal and the parsed prerelease tuples are equal, where the parsed
tuple splits the post-patch remainder on both `'.'` and `'-'`; distinct
parsed tuples compare unequal, e.g. the parses of `"1.0.0-a"` and
`"1.0.0-b"`. -/
theorem C4_equality_iff_core_and_tuple :
    (∀ (sa sb : List Char) (va vb : V),
      parse sa = some va → parse sb = some vb →
      (veq va vb = true ↔ coreOf va = coreOf vb ∧ preOf va = preOf vb)) ∧
    veq (1, 0, 0, [['a']]) (1, 0, 0, [['b']]) = false := by
  refine ⟨?_, by decide⟩
  intro sa sb va vb _ _
  unfold veq
  rw [decide_eq_true_eq, Prod.mk.injEq]

/-- C4 witness: the equality characterisation at the parses of
`"1.0.0-a"` and `"1.0.0-b"`. -/
theorem C4_equality_iff_core_and_tuple_witness :
    veq ((1, 0, 0, [['a']]) : V) ((1, 0, 0, [['b']]) : V) = true ↔
      coreOf ((1, 0, 0, [['a']]) : V) = coreOf ((1, 0, 0, [['b']]) : V) ∧
      preOf ((1, 0, 0, [['a']]) : V) = preOf ((1, 0, 0, [['b']]) : V) :=
  C4_equality_iff_core_and_tuple.1 ("1.0.0-a".toList) ("1.0.0-b".toList)
    (1, 0, 0, [['a']]) (1, 0, 0, [['b']]) (by decide) (by decide)

/-- C5 (counterexample): a digit run with a leading zero is not
accepted as a prerelease identifier: the regex alternative
`\d*[a-zA-Z-][0-9a-zA-Z-]*` requires a non-digit, so `"1.0.0-01"` fails
validation instead of being classified alphanumeric. -/
theorem C5_leading_zero_identifier_rejected :
    is_match ("1.0.0-01".toList) = false ∧
    parse ("1.0.0-01".toList) = none :=
  ⟨by decide, by decide⟩

/-- C5 (amended): every identifier drawn from `[0-9A-Za-z-]+` that
contains at least one non-digit is accepted by the grammar as a
prerelease identifier and is classified alphanumeric by the comparison
(`str.isdigit` is false on it); pure digit runs with a leading zero are
instead rejected (see the counterexample). -/
theorem C5_alphanumeric_identifier_accepted :
    ∀ c : List Char, c ≠ [] → (∀ ch ∈ c, identChar ch = true) →
      c.all isDig = false →
      is_match ('1' :: '.' :: '0' :: '.' :: '0' :: '-' :: c) = true ∧
      pyIsDigit c = false := by
  intro c h0 hid hnd
  constructor
  · unfold is_match
    rw [strictMatch_core_dash c h0 hid hnd]
    rfl
  · simp [pyIsDigit, hnd]

/-- C5 witness: the identifier `"01a"` (leading zero plus a non-digit)
is accepted after the core `"1.0.0"` and is not a digit run. -/
theorem C5_alphanumeric_identifier_accepted_witness :
    is_match ('1' :: '.' :: '0' :: '.' :: '0' :: '-' :: ['0', '1', 'a']) =
      true ∧
    pyIsDigit ['0', '1', 'a'] = false :=
  C5_alphanumeric_identifier_accepted ['0', '1', 'a'] (by decide)
    (by decide) (by decide)

/-- C6: the five malformed inputs of the spec are all rejected by
validation and produce no Version value. -/
theorem C6_malformed_inputs_rejected :
    parse ("1.01.0".toList) = none ∧ parse ("1.0".toList) = none ∧
    parse ("1.0.0-".toList) = none ∧ parse ("01.0.0".toList) = none ∧
    parse ("1.0.0+".toList) = none :=
  ⟨by decide, by decide, by decide, by decide, by decide⟩

/-- C7: with equal cores, the first textually unequal identifier pair
decides `__lt__`, and when both identifiers of that pair are digit runs
they are compared as integers; in particular
`"1.0.0-beta.2" < "1.0.0-beta.11"`. -/
theorem C7_first_unequal_pair_decides :
    (∀ (sa sb : List Char) (va vb : V) (pfx : List (List Char))
      (a b : List Char) (ra rb : List (List Char)),
      parse sa = some va → parse sb = some vb →
      coreOf va = coreOf vb →
      preOf va = pfx ++ a :: ra → preOf vb = pfx ++ b :: rb → a ≠ b →
      vlt va vb = identDecide a b ∧
        (pyIsDigit a = true → pyIsDigit b = true →
          vlt va vb = decide (digitVal a < digitVal b))) ∧
    parse ("1.0.0-beta.2".toList) =
      some (1, 0, 0, [['b', 'e', 't', 'a'], ['2']]) ∧
    parse ("1.0.0-beta.11".toList) =
      some (1, 0, 0, [['b', 'e', 't', 'a'], ['1', '1']]) ∧
    vlt (1, 0, 0, [['b', 'e', 't', 'a'], ['2']])
      (1, 0, 0, [['b', 'e', 't', 'a'], ['1', '1']]) = true := by
  refine ⟨?_, by decide, by decide, by decide⟩
  intro sa sb va vb pfx a b ra rb _ _ hc hpa hpb hne
  have hv : vlt va vb = identDecide a b := by
    rw [vlt_eq_core va vb hc, hpa, hpb, cplt_first_diff pfx a b ra rb hne]
  refine ⟨hv, fun da db => ?_⟩
  rw [hv]
  unfold identDecide
  rw [da, db]
  rfl

/-- C7 witness: the first-pair rule applied at the parses of
`"1.0.0-beta.2"` and `"1.0.0-beta.11"`, whose first unequal pair is the
digit runs `"2"` and `"11"`. -/
theorem C7_first_unequal_pair_decides_witness :
    vlt ((1, 0, 0, [['b', 'e', 't', 'a'], ['2']]) : V)
      (1, 0, 0, [['b', 'e', 't', 'a'], ['1', '1']]) =
      identDecide ['2'] ['1', '1'] ∧
    vlt ((1, 0, 0, [['b', 'e', 't', 'a'], ['2']]) : V)
      (1, 0, 0, [['b', 'e', 't', 'a'], ['1', '1']]) =
      decide (digitVal ['2'] < digitVal ['1', '1']) := by
  have h := C7_first_unequal_pair_decides.1 ("1.0.0-beta.2".toList)
    ("1.0.0-beta.11".toList) (1, 0, 0, [['b', 'e', 't', 'a'], ['2']])
    (1, 0, 0, [['b', 'e', 't', 'a'], ['1', '1']]) [['b', 'e', 't', 'a']]
    ['2'] ['1', '1'] [] [] (by decide) (by decide) (by decide) (by decide)
    (by decide) (by decide)
  exact ⟨h.1, h.2 (by decide) (by decide)⟩

/-- C8: with equal cores, a version with a nonempty prerelease tuple is
strictly below one with the empty tuple: `__lt__` holds one way only
and `__eq__` fails; in particular `"1.0.0-rc.1" < "1.0.0"`. -/
theorem C8_prerelease_below_release :
    (∀ (sa sb : List Char) (va vb : V),
      parse sa = some va → parse sb = some vb →
      coreOf va = coreOf vb → preOf va ≠ [] → preOf vb = [] →
      vlt va vb = true ∧ vlt vb va = false ∧ veq va vb = false) ∧
    parse ("1.0.0-rc.1".toList) = some (1, 0, 0, [['r', 'c'], ['1']]) ∧
    parse ("1.0.0".toList) = some (1, 0, 0, []) ∧
    vlt (1, 0, 0, [['r', 'c'], ['1']]) (1, 0, 0, []) = true := by
  refine ⟨?_, by decide, by decide, by decide⟩
  intro sa sb va vb _ _ hc hpa hpb
  refine ⟨?_, ?_, ?_⟩
  · rw [vlt_eq_core va vb hc, hpb]
    exact cplt_nonempty_empty _ hpa
  · rw [vlt_eq_core vb va hc.symm, hpb]
    exact cplt_empty _
  · unfold veq
    rw [decide_eq_false_iff_not]
    intro he
    rw [Prod.mk.injEq] at he
    exact hpa (he.2.trans hpb)

/-- C8 witness: the prerelease-below-release theorem applied at the
parses of `"1.0.0-rc.1"` and `"1.0.0"`. -/
theorem C8_prerelease_below_release_witness :
    vlt ((1, 0, 0, [['r', 'c'], ['1']]) : V) ((1, 0, 0, []) : V) = true ∧
    vlt ((1, 0, 0, []) : V) ((1, 0, 0, [['r', 'c'], ['1']]) : V) = false ∧
    veq ((1, 0, 0, [['r', 'c'], ['1']]) : V) ((1, 0, 0, []) : V) = false :=
  C8_prerelease_below_release.1 ("1.0.0-rc.1".toList) ("1.0.0".toList)
    (1, 0, 0, [['r', 'c'], ['1']]) (1, 0, 0, [])
    (by decide) (by decide) (by decide) (by decide) (by decide)

/-- C9: construction succeeds exactly when the grammar matches — every
input string either yields a Version or fails with the single
InvalidFormat error, and the post-validation decomposition (all of
whose Python failure points are modelled as `none`) never fails on a
validated string. -/
theorem C9_parse_total_no_other_error :
    ∀ s : List Char, (parse s).isSome = is_match s := by
  intro s
  cases h : is_match s with
  | true => exact parse_isSome_of_match h
  | false =>
    unfold parse
    rw [h]
    rfl

/-- C10 (counterexample): replacing the hyphen inside the prerelease
identifier `"a-"` of the valid version `"1.0.0-a-"` with a dot yields
`"1.0.0-a."`, which is rejected by validation, so no equal Version is
produced. -/
theorem C10_replacement_can_invalidate :
    is_match ("1.0.0-a-".toList) = true ∧
    parse ("1.0.0-a-".toList) = some (1, 0, 0, [['a'], []]) ∧
    is_match ("1.0.0-a.".toList) = false ∧
    parse ("1.0.0-a.".toList) = none :=
  ⟨by decide, by decide, by decide, by decide⟩

/-- C10 (amended): when a `'-'` strictly after the patch-prerelease
separator of a valid version is replaced by `'.'` and the result is
still valid, both strings parse to the same value (the decomposition
splits on `'.'` and `'-'` alike) and the values compare equal. -/
theorem C10_hyphen_acts_as_dot :
    ∀ (m n p r : List Char) (j : Nat),
      '.' ∉ m → '.' ∉ n → p ≠ [] → (∀ c ∈ p, isDig c = true) →
      r.get? j = some '-' →
      is_match (m ++ '.' :: (n ++ '.' :: (p ++ '-' :: r))) = true →
      is_match (m ++ '.' :: (n ++ '.' :: (p ++ '-' :: (r.set j '.')))) =
        true →
      ∃ v, parse (m ++ '.' :: (n ++ '.' :: (p ++ '-' :: r))) = some v ∧
        parse (m ++ '.' :: (n ++ '.' :: (p ++ '-' :: (r.set j '.')))) =
          some v ∧
        veq v v = true := by
  intro m n p r j hm hn hp hpd hj hv1 hv2
  have h1 : parse (m ++ '.' :: (n ++ '.' :: (p ++ '-' :: r))) =
      parse_parts (m ++ '.' :: (n ++ '.' :: (p ++ '-' :: r))) := by
    unfold parse
    rw [if_pos hv1]
  have h2 : parse (m ++ '.' :: (n ++ '.' :: (p ++ '-' :: (r.set j '.')))) =
      parse_parts (m ++ '.' :: (n ++ '.' :: (p ++ '-' :: (r.set j '.')))) := by
    unfold parse
    rw [if_pos hv2]
  have hsw := parse_parts_swap m n p r j hm hn hp hpd hj
  have hsome := parse_isSome_of_match hv1
  obtain ⟨v, hv⟩ := Option.isSome_iff_exists.mp hsome
  refine ⟨v, hv, ?_, by simp [veq]⟩
  rw [h2, hsw, ← h1, hv]

/-- C10 witness: the hyphen-as-dot theorem applied to `"1.0.0-a-b"`
and its replacement `"1.0.0-a.b"`. -/
theorem C10_hyphen_acts_as_dot_witness :
    ∃ v, parse (['1'] ++ '.' :: (['0'] ++ '.' ::
        (['0'] ++ '-' :: ['a', '-', 'b']))) = some v ∧
      parse (['1'] ++ '.' :: (['0'] ++ '.' ::
        (['0'] ++ '-' :: (['a', '-', 'b'].set 1 '.')))) = some v ∧
      veq v v = true :=
  C10_hyphen_acts_as_dot ['1'] ['0'] ['0'] ['a', '-', 'b'] 1 (by decide)
    (by decide) (by decide) (by decide) (by decide) (by decide) (by decide)

end Semver
